import Mathlib

/-!
Verification of the backup-bundle tool (`backup_bundle.py`): a shallow
embedding of the incremental bundle builder (`Backup`), the restore
reconciler (`Restoration`) and the exit-code handling of `main`, together
with theorems settling the specification claims about them.

The external version-control tool (git) is the gateway of spec section 6.
Its read-only queries (reference listing, ancestry queries, parent lookup,
commit presence) are modelled as data carried by the repository structures;
its fetch dry-run is modelled by an explicit success / missing-data /
non-fast-forward outcome, following the gateway contract.
-/

/-- A git reference: a commit hash together with a fully qualified reference
name, mirroring class `GitRef` (equality is by the (hash, ref) pair). -/
structure GitRef where
  hash : String
  ref : String
deriving DecidableEq, Repr

/-- The contents of a metadata file, mirroring the `Metadata` dataclass. -/
structure Metadata where
  version : Nat
  known_tag_refs : List String
deriving DecidableEq, Repr

/-- Value of `Metadata.CURRENT_VERSION` in the source. -/
def currentMetadataVersion : Nat := 1

/-- The defined non-zero exit codes of the script (class `ExitCode`). -/
inductive ExitCode where
  | argparseError
  | nothingRestored
  | missingRemote
  | gitCommunicationError
  | gitCallFailed
  | exceptionOccurred
deriving DecidableEq, Repr

/-- The numeric value of each exit code, as declared in the `ExitCode`
IntEnum of the source. -/
def ExitCode.toNat : ExitCode → Nat
  | .argparseError => 2
  | .nothingRestored => 3
  | .missingRemote => 4
  | .gitCommunicationError => 5
  | .gitCallFailed => 6
  | .exceptionOccurred => 100

/-- The source repository a backup reads from, with the gateway's read-only
queries modelled as data: `headRefs` is the output of `git show-ref --heads`,
`tagRefs` the additional references shown by `--tags`, `ancestry h` the
output of `git rev-list h` (every commit reachable from `h`, including `h`),
and `parent1 h` the output of `try_call_git(["rev-parse", h ++ "~1"])`
(`none` when the call fails, i.e. `h` has no parent). -/
structure SourceRepo where
  headRefs : List GitRef
  tagRefs : List GitRef
  ancestry : String → List String
  parent1 : String → Option String

/-- Python's `s.startswith(pre)`, stated on the character lists of the
strings so that concrete instances evaluate inside the kernel. -/
def strStartsWith (s pre : String) : Bool := List.isPrefixOf pre.data s.data

/-- Model of `git rev-list incl --not excl`: the commits reachable from `incl` but not
from `excl`.  The python code wraps the result in `set(...)`; only membership
and emptiness of the result are ever used, so a list with possible duplicates
is a faithful carrier. -/
def revList (repo : SourceRepo) (incl excl : List String) : List String :=
  (incl.flatMap repo.ancestry).filter
    (fun c => !(decide (c ∈ excl.flatMap repo.ancestry)))

/-- Model of `git ls-remote --heads [--tags] bundle` on a stored bundle that contains
the references `refs`: the heads, plus the tags when `includeTags`. -/
def lsRemoteFilter (includeTags : Bool) (refs : List GitRef) : List GitRef :=
  refs.filter
    (fun r => strStartsWith r.ref "refs/heads/" ||
      (includeTags && strStartsWith r.ref "refs/tags/"))

/-- Test `not (set(a) ^ set(b))`: the two lists hold the same set of references. -/
def sameRefSet (a b : List GitRef) : Bool :=
  a.all (fun x => decide (x ∈ b)) && b.all (fun x => decide (x ∈ a))

/-- The references to include in the new bundle: all branch heads, plus all
tags when a metadata record is in use, minus every reference whose name is
already recorded in `known_tag_refs` (lines 457-469 of the source). -/
def cibRefsToInclude (repo : SourceRepo) (metadataOpt : Option Metadata) :
    List GitRef :=
  let refsAll := repo.headRefs ++ (if metadataOpt.isSome then repo.tagRefs else [])
  match metadataOpt with
  | some m => refsAll.filter (fun r => !(decide (r.ref ∈ m.known_tag_refs)))
  | none => refsAll

/-- The references listed from the previous (stored) bundle, `[]` when the
stored bundle does not exist (lines 473-480 of the source). -/
def cibPrevRefs (storedBundle : Option (List GitRef))
    (metadataOpt : Option Metadata) : List GitRef :=
  match storedBundle with
  | some refs => lsRemoteFilter metadataOpt.isSome refs
  | none => []

/-- List `previous_backup_ref_commits`: the frontier commits of the previous
snapshot. -/
def cibPrevCommits (storedBundle : Option (List GitRef))
    (metadataOpt : Option Metadata) : List String :=
  (cibPrevRefs storedBundle metadataOpt).map (·.hash)

/-- Set `new_commits`: all commits reachable from the references to include but
not from the previous snapshot's frontier (lines 484-489). -/
def cibNewCommits (repo : SourceRepo) (storedBundle : Option (List GitRef))
    (metadataOpt : Option Metadata) : List String :=
  revList repo ((cibRefsToInclude repo metadataOpt).map (·.hash))
    (cibPrevCommits storedBundle metadataOpt)

/-- Set `all_commits_to_include`, the union of the new commits with the
commit of each included reference (line 512). -/
def cibAllCommitsToInclude (repo : SourceRepo)
    (storedBundle : Option (List GitRef)) (metadataOpt : Option Metadata) :
    List String :=
  cibNewCommits repo storedBundle metadataOpt ++
    (cibRefsToInclude repo metadataOpt).map (·.hash)

/-- List `included_refs_parent_commit`: the existing immediate parent of each
included reference's commit (lines 517-521). -/
def cibParentCommits (repo : SourceRepo) (metadataOpt : Option Metadata) :
    List String :=
  (cibRefsToInclude repo metadataOpt).filterMap (fun r => repo.parent1 r.hash)

/-- The candidate exclusions: every frontier commit of the previous snapshot
followed by the parent commits of the included references (the key list of
the `reachable_commits_per_exclusion` dict, line 522-525). -/
def cibCandidates (repo : SourceRepo) (storedBundle : Option (List GitRef))
    (metadataOpt : Option Metadata) : List String :=
  cibPrevCommits storedBundle metadataOpt ++ cibParentCommits repo metadataOpt

/-- List `use_exclusions`: the candidates whose full ancestry set is disjoint from
`all_commits_to_include` (lines 522-530).  The python dict collapses duplicate
candidate keys; `dedup` plays that role (key order is immaterial to every
stated property). -/
def cibUseExclusions (repo : SourceRepo) (storedBundle : Option (List GitRef))
    (metadataOpt : Option Metadata) : List String :=
  (cibCandidates repo storedBundle metadataOpt).dedup.filter
    (fun c => (repo.ancestry c).all
      (fun a => !(decide (a ∈ cibAllCommitsToInclude repo storedBundle metadataOpt))))

/-- Result of `Backup._create_incremental_bundle`: either the skip-unchanged
early return (no bundle written), or a written bundle with the returned
metadata, the references named to `git bundle create`, the exclusions passed
to it, and the new commits. -/
inductive CibResult where
  | skipped (metadata : Metadata)
  | written (metadata : Metadata) (refsToInclude : List GitRef)
      (exclusions : List String) (newCommits : List String)
deriving DecidableEq, Repr

/-- Whether a bundle file was written (the second component of the python
return value). -/
def CibResult.wasWritten : CibResult → Bool
  | .skipped _ => false
  | .written _ _ _ _ => true

/-- The metadata returned alongside the bundle. -/
def CibResult.resultMetadata : CibResult → Metadata
  | .skipped m => m
  | .written m _ _ _ => m

/-- The references included in the written bundle (`[]` when no bundle was
written). -/
def CibResult.refsIncluded : CibResult → List GitRef
  | .skipped _ => []
  | .written _ refs _ _ => refs

/-- Embedding of `Backup._create_incremental_bundle` (lines 424-556): compute the
references to include, the new commits relative to the stored bundle, decide
the skip-unchanged early return, compute the tightest safe exclusion set,
create the bundle and merge the newly included tag names into the metadata.
`metadataOpt` is the metadata as read (already defaulted to an empty record
when a metadata file was named but absent); `storedBundle` is the reference
listing of the stored bundle when it exists. -/
def createIncrementalBundle (repo : SourceRepo)
    (storedBundle : Option (List GitRef)) (metadataOpt : Option Metadata)
    (skipUnchanged : Bool) : CibResult :=
  let refsToInclude := cibRefsToInclude repo metadataOpt
  let newCommits := cibNewCommits repo storedBundle metadataOpt
  if newCommits.isEmpty && skipUnchanged &&
      sameRefSet (cibPrevRefs storedBundle metadataOpt) refsToInclude then
    .skipped (metadataOpt.getD ⟨currentMetadataVersion, []⟩)
  else
    let m := metadataOpt.getD ⟨currentMetadataVersion, []⟩
    let newTagRefs :=
      (refsToInclude.filter (fun r => strStartsWith r.ref "refs/tags/")).map (·.ref)
    .written { m with known_tag_refs := (m.known_tag_refs ++ newTagRefs).dedup }
      refsToInclude (cibUseExclusions repo storedBundle metadataOpt) newCommits

/-- The externally visible file writes of `Backup.perform_backup`, in
chronological order: the bundle file itself (written by
`_create_incremental_bundle`), the copy onto the stored-bundle location, and
the metadata file. -/
inductive BackupEvent where
  | bundleCreated
  | storedUpdated
  | metadataWritten
deriving DecidableEq, Repr

/-- Chronological rank of a backup event. -/
def BackupEvent.rank : BackupEvent → Nat
  | .bundleCreated => 0
  | .storedUpdated => 1
  | .metadataWritten => 2

/-- Embedding of `Backup.perform_backup` (lines 379-422), observed through its file
writes.  `gatewayOk` models whether the gateway calls inside
`_create_incremental_bundle` succeed; a failing call raises
`GitCallFailedError`, which propagates out of `perform_backup` before any of
the three writes happened (the bundle-create call is the last gateway call,
and nothing but pure metadata merging follows it).  `bundleIsStored` models
`bundle.resolve() == stored_bundle.resolve()` (no copy needed) and
`hasMetadataFile` whether a metadata file was named.  The first component is
the chronological list of performed writes, the second the python return
value (`Except.error` for the propagated exception). -/
def performBackup (repo : SourceRepo) (storedBundle : Option (List GitRef))
    (metadataOpt : Option Metadata) (skipUnchanged : Bool) (gatewayOk : Bool)
    (bundleIsStored : Bool) (hasMetadataFile : Bool) :
    List BackupEvent × Except Unit Bool :=
  if gatewayOk = false then ([], .error ())
  else
    match createIncrementalBundle repo storedBundle metadataOpt skipUnchanged with
    | .skipped _ => ([], .ok false)
    | .written _ _ _ _ =>
        (BackupEvent.bundleCreated ::
          ((if bundleIsStored then [] else [BackupEvent.storedUpdated]) ++
            (if hasMetadataFile then [BackupEvent.metadataWritten] else [])),
          .ok true)

/-- What one bundle file contributes to a restore: the references it lists
(`list_references_in_repo`), the prerequisite commits that must already exist
in the target for `git bundle verify` / `git fetch` to find all data, and the
commits it carries. -/
structure BundleInfo where
  refs : List GitRef
  prereqs : List String
  commits : List String

/-- The evolving part of the target repository: the commits present (the
gateway's membership query) and the current references. -/
structure RepoDyn where
  commits : List String
  refs : List GitRef
deriving DecidableEq, Repr

/-- The fixed context of a `Restoration`, mirroring its constructor state:
the flags, the bareness of the target, the branch checked out at
initialization, plus the gateway model: `descends c p` is whether commit `p`
is an ancestor of commit `c` (the fixed commit graph), `info` the per-bundle
data, and `clean` the working-tree cleanliness reported by
`git status --porcelain=1` (the tool itself never dirties the tree, so one
answer per run is faithful).  `strictOrder` and `isFile` are the
`restore_bundles` arguments: strict-order mode, and whether the `bundle`
argument is a single file rather than a directory. -/
structure RestoCtx where
  descends : String → String → Bool
  info : String → BundleInfo
  force : Bool
  prune : Bool
  deleteFiles : Bool
  isBare : Bool
  clean : Bool
  strictOrder : Bool
  isFile : Bool
  currentBranchName : String
  currentBranch : Option GitRef

/-- Embedding of `are_available` (lines 559-569): every listed commit is already present
in the target repository (`git rev-list -n 1 hash` succeeds). -/
def areAvailable (repoCommits : List String) (commits : List GitRef) : Bool :=
  commits.all (fun commit => decide (commit.hash ∈ repoCommits))

/-- The hash a named reference currently points to in the target, if any. -/
def refLookup (refs : List GitRef) (name : String) : Option String :=
  match refs.filter (fun r => r.ref == name) with
  | r :: _ => some r.hash
  | [] => none

/-- Whether updating reference `r` in a repository whose references are
`repoRefs` is acceptable to a non-forced `git fetch`: the reference is new,
unchanged, or fast-forwarded (the new commit descends from the old one).
Gateway model, per the spec's fetch contract. -/
def refUpdateFastForward (ctx : RestoCtx) (repoRefs : List GitRef)
    (r : GitRef) : Bool :=
  match refLookup repoRefs r.ref with
  | none => true
  | some old => old == r.hash || ctx.descends r.hash old

/-- Embedding of `Restoration._is_bad_head_update` (lines 724-767): whether updating the
target to `newReferences` would touch the currently checked out branch in an
impermissible way. -/
def isBadHeadUpdate (ctx : RestoCtx) (newReferences : List GitRef) : Bool :=
  if ctx.currentBranchName = "" then false
  else
    match newReferences.filter
        (fun r => r.ref == "refs/heads/" ++ ctx.currentBranchName) with
    | r :: _ =>
      if ctx.force || ctx.isBare then false
      else if (match ctx.currentBranch with
          | some cb => r.hash == cb.hash
          | none => false) then false
      else if ctx.clean then false
      else true
    | [] =>
      if ctx.force then false else true

/-- Outcome of the gateway's non-committing trial application of a bundle
(`git bundle verify` plus `git fetch --dry-run`), per the gateway contract of
spec section 6: success, or a distinguishable missing-data versus
non-fast-forward failure. -/
inductive FetchDryRun where
  | success
  | missingData
  | nonFastForward
deriving DecidableEq, Repr

/-- Gateway model of the dry run for one bundle: it fails with missing data
when a prerequisite commit is absent from the target, and, when not forced,
with a non-fast-forward rejection when some reference update is not a
fast-forward. -/
def fetchDryRun (ctx : RestoCtx) (repo : RepoDyn) (forced : Bool)
    (b : BundleInfo) : FetchDryRun :=
  if !(b.prereqs.all (fun c => decide (c ∈ repo.commits))) then .missingData
  else if !forced && b.refs.any (fun r => !(refUpdateFastForward ctx repo.refs r)) then
    .nonFastForward
  else .success

/-- Outcome of the per-bundle body of `Restoration.restore_bundles`
(lines 951-1007) for one candidate bundle. -/
inductive AttemptOutcome where
  | alreadyRestored
  | refusedHead
  | failedRestore
  | restored
deriving DecidableEq, Repr

/-- The per-bundle decision procedure of `restore_bundles` (lines 951-1007):
the already-available check with its `apply_force` exemption, then the
checked-out-branch safety check, then the verify-and-dry-run trial performed
by `_perform_bundle_restore` (whose dry run receives `--force` exactly when
the Restoration was forced). -/
def attemptBundle (ctx : RestoCtx) (repo : RepoDyn) (b : String) :
    AttemptOutcome :=
  let applyForce := ctx.force && (ctx.strictOrder || ctx.isFile)
  if !applyForce && areAvailable repo.commits (ctx.info b).refs then
    .alreadyRestored
  else if isBadHeadUpdate ctx (ctx.info b).refs then .refusedHead
  else
    match fetchDryRun ctx repo ctx.force (ctx.info b) with
    | .success => .restored
    | _ => .failedRestore

/-- Gateway model of actually fetching a bundle into the target: its commits
become present and its references are applied (with `--prune` removing the
branches it does not list). -/
def applyBundle (ctx : RestoCtx) (repo : RepoDyn) (b : String) : RepoDyn :=
  let bi := ctx.info b
  let names := bi.refs.map (·.ref)
  { commits := repo.commits ++ bi.commits
    refs := (repo.refs.filter (fun r => !(decide (r.ref ∈ names)) &&
        !(ctx.prune && strStartsWith r.ref "refs/heads/"))) ++ bi.refs }

/-- The mutable restore bookkeeping of a `Restoration`: the target
repository, the bundles never to be attempted again (`skip_bundles`) and the
count of restored bundles (`restored_bundle_count`). -/
structure RestoState where
  repo : RepoDyn
  skipBundles : List String
  restoredCount : Nat
deriving DecidableEq, Repr

/-- Embedding of `Restoration._mark_bundle_restored` (lines 682-705): record the bundle in
the skip set, count it, and report whether a new sweep over the remaining
bundles is warranted. -/
def markBundleRestored (ctx : RestoCtx) (st : RestoState) (b : String)
    (wasAlreadyRestored : Bool) : RestoState × Bool :=
  let st1 := { st with skipBundles := b :: st.skipBundles }
  if !wasAlreadyRestored then
    ({ st1 with restoredCount := st1.restoredCount + 1 }, true)
  else if ctx.deleteFiles then
    ({ st1 with restoredCount := st1.restoredCount + 1 }, false)
  else (st1, false)

/-- One sweep of the `for current_bundle in bundles` loop of
`restore_bundles` (lines 951-1007): attempt each not-yet-skipped bundle in
order, updating the state and the `restore_more_bundles` flag `more`; in
strict-order mode a head refusal or a failed restore breaks out of the
sweep. -/
def sweepGo (ctx : RestoCtx) : List String → RestoState → Bool →
    RestoState × Bool
  | [], st, more => (st, more)
  | b :: rest, st, more =>
    if b ∈ st.skipBundles then sweepGo ctx rest st more
    else
      match attemptBundle ctx st.repo b with
      | .alreadyRestored =>
        let r := markBundleRestored ctx st b true
        sweepGo ctx rest r.1 (more || r.2)
      | .refusedHead =>
        let st' := { st with skipBundles := b :: st.skipBundles }
        if ctx.strictOrder then (st', more) else sweepGo ctx rest st' more
      | .failedRestore =>
        if ctx.strictOrder then (st, more) else sweepGo ctx rest st more
      | .restored =>
        let st1 := { st with repo := applyBundle ctx st.repo b }
        let r := markBundleRestored ctx st1 b false
        sweepGo ctx rest r.1 (more || r.2)

/-- The `while restore_more_bundles` loop of `restore_bundles`
(lines 946-1012), with explicit fuel bounding the number of sweeps: each
iteration runs one sweep and continues only when the sweep made progress and
strict-order mode is off. -/
def restoreLoop (ctx : RestoCtx) (bundles : List String) :
    Nat → RestoState → RestoState
  | 0, st => st
  | fuel + 1, st =>
    let r := sweepGo ctx bundles st false
    if r.2 && !ctx.strictOrder then restoreLoop ctx bundles fuel r.1 else r.1

/-- Embedding of `Restoration.restore_bundles` on a sorted list of bundle files: the sweep
loop, run with fuel `bundles.length + 1`, which theorem `sweep_loop_bounded`
shows is always enough for the fixed point. -/
def restoreBundles (ctx : RestoCtx) (bundles : List String)
    (st : RestoState) : RestoState :=
  restoreLoop ctx bundles (bundles.length + 1) st

/-- Restatement of the spec's wording for claim C2 (refinement target): the
snapshot changes or deletes the checked-out branch whose commit is `cbHash`:
its reference list either lacks the checked-out branch or moves it to a
different commit. -/
def specChangesOrDeletesCheckout (ctx : RestoCtx) (cbHash : String)
    (refs : List GitRef) : Bool :=
  match refs.filter (fun r => r.ref == "refs/heads/" ++ ctx.currentBranchName) with
  | [] => true
  | r :: _ => !(r.hash == cbHash)

/-- Restatement of the spec's wording for claim C2 (refinement target): the
update is a fast-forward of the existing checkout at `cbHash` (a reference
for the checked-out branch is present and its commit descends from, or
equals, the checked-out commit). -/
def specFastForwardOfCheckout (ctx : RestoCtx) (cbHash : String)
    (refs : List GitRef) : Bool :=
  match refs.filter (fun r => r.ref == "refs/heads/" ++ ctx.currentBranchName) with
  | [] => false
  | r :: _ => r.hash == cbHash || ctx.descends r.hash cbHash

/-- Side condition for full acceptance in claim C2: every reference of the
snapshot other than the checked-out branch is acceptable to a non-forced
fetch (new, unchanged or fast-forwarded). -/
def specOtherRefsFastForward (ctx : RestoCtx) (repoRefs : List GitRef)
    (refs : List GitRef) : Bool :=
  refs.all (fun r => r.ref == "refs/heads/" ++ ctx.currentBranchName ||
    refUpdateFastForward ctx repoRefs r)

/-- How `main` reports a restore invocation (lines 1265-1272): zero restored
bundles raise `NoBundlesRestoredError` (exit code `NOTHING_RESTORED`), fewer
restored than found is only a warning, otherwise plain success. -/
inductive RestoreReport where
  | failed (code : ExitCode)
  | someUnrestored
  | allRestored
deriving DecidableEq, Repr

/-- The decision `main` takes from the restored-bundle count and the number
of bundle files found (lines 1265-1272 of the source). -/
def mainRestoreReport (restoredBundleCount bundleCount : Nat) : RestoreReport :=
  if restoredBundleCount = 0 then .failed ExitCode.nothingRestored
  else if restoredBundleCount ≠ bundleCount then .someUnrestored
  else .allRestored

/-- Example source repository for concrete instances: branch `main` at
commit `c2` (child of `c1`) and tag `v1` at `c1`. -/
def witnessRepo : SourceRepo where
  headRefs := [⟨"c2", "refs/heads/main"⟩]
  tagRefs := [⟨"c1", "refs/tags/v1"⟩]
  ancestry := fun h =>
    if h = "c2" then ["c2", "c1"] else if h = "c1" then ["c1"] else []
  parent1 := fun h => if h = "c2" then some "c1" else none

/-- Example source repository without tags: branch `main` at commit `c2`
(child of `c1`). -/
def plainRepo : SourceRepo where
  headRefs := [⟨"c2", "refs/heads/main"⟩]
  tagRefs := []
  ancestry := fun h =>
    if h = "c2" then ["c2", "c1"] else if h = "c1" then ["c1"] else []
  parent1 := fun h => if h = "c2" then some "c1" else none

/-- Example restoration context for concrete instances: non-forced,
non-bare, clean worktree, branch `main` checked out at `c1`, and one bundle
advancing `main` to `c2` (which descends from `c1`). -/
def exCtx : RestoCtx where
  descends := fun a b => a == "c2" && b == "c1"
  info := fun _ => ⟨[⟨"c2", "refs/heads/main"⟩], ["c1"], ["c2"]⟩
  force := false
  prune := false
  deleteFiles := false
  isBare := false
  clean := true
  strictOrder := false
  isFile := false
  currentBranchName := "main"
  currentBranch := some ⟨"c1", "refs/heads/main"⟩

/-- Example target repository state: commit `c1` present, `main` at `c1`. -/
def exRepo : RepoDyn where
  commits := ["c1"]
  refs := [⟨"c1", "refs/heads/main"⟩]

/-- The checked-out branch of the example target. -/
def exCb : GitRef := ⟨"c1", "refs/heads/main"⟩

/-- Example restoration bookkeeping state: fresh run on the example
target. -/
def exSt : RestoState where
  repo := exRepo
  skipBundles := []
  restoredCount := 0

/-- If the names of the references in `l` are distinct, a name filter that
matched `r` matched nothing else: the tail is empty and every element of `l`
carrying the name is `r` itself. -/
theorem filter_ref_eq_singleton {l : List GitRef} {nm : String} {r : GitRef}
    {rest : List GitRef} (hnd : (l.map GitRef.ref).Nodup)
    (hf : l.filter (fun x => x.ref == nm) = r :: rest) :
    rest = [] ∧ ∀ x ∈ l, x.ref = nm → x = r := by
  have hfsub : List.Sublist (l.filter (fun x => x.ref == nm)) l :=
    List.filter_sublist l
  have hfnd : ((l.filter (fun x => x.ref == nm)).map GitRef.ref).Nodup :=
    (hfsub.map GitRef.ref).nodup hnd
  rw [hf] at hfnd
  have hrref : r.ref = nm := by
    have hrmem : r ∈ l.filter (fun x => x.ref == nm) := by
      rw [hf]; exact List.mem_cons_self r rest
    have := (List.mem_filter.mp hrmem).2
    simpa using this
  have hrest : rest = [] := by
    cases hrest : rest with
    | nil => rfl
    | cons y t =>
      exfalso
      have hymem : y ∈ l.filter (fun x => x.ref == nm) := by
        rw [hf, hrest]
        exact List.mem_cons_of_mem _ (List.mem_cons_self y t)
      have hyref : y.ref = nm := by
        have := (List.mem_filter.mp hymem).2
        simpa using this
      rw [List.map_cons, List.nodup_cons] at hfnd
      exact hfnd.1 (by
        rw [hrest, List.map_cons, hyref, hrref]
        exact List.mem_cons_self nm _)
  refine ⟨hrest, fun x hx hxref => ?_⟩
  have hxmem : x ∈ l.filter (fun x => x.ref == nm) := by
    rw [List.mem_filter]
    exact ⟨hx, by simpa using hxref⟩
  rw [hf, hrest] at hxmem
  simpa using hxmem

/-- Claim C2: for a snapshot whose reference list would change or delete the
currently checked-out branch (and whose commits are not all already present,
so the decision procedure is actually run), the snapshot is restored exactly
when its prerequisite data is present and either the restore is forced, or
the working tree is clean, the update is a fast-forward of the existing
checkout and every other reference update is acceptable to a non-forced
fetch.  In particular a non-forced restore with a dirty working tree always
refuses such a snapshot, and a clean fast-forward advance is accepted
without forcing. -/
theorem claim2_checked_out_branch_safety (ctx : RestoCtx) (repo : RepoDyn)
    (b : String) (cb : GitRef)
    (hcb : ctx.currentBranch = some cb)
    (hname : ctx.currentBranchName ≠ "")
    (hbare : ctx.isBare = true → ctx.clean = true)
    (hlook : refLookup repo.refs ("refs/heads/" ++ ctx.currentBranchName) =
      some cb.hash)
    (hnodup : ((ctx.info b).refs.map GitRef.ref).Nodup)
    (hchange : specChangesOrDeletesCheckout ctx cb.hash (ctx.info b).refs = true)
    (hav : (!(ctx.force && (ctx.strictOrder || ctx.isFile)) &&
        areAvailable repo.commits (ctx.info b).refs) = false) :
    attemptBundle ctx repo b = .restored ↔
      (ctx.info b).prereqs.all (fun c => decide (c ∈ repo.commits)) = true ∧
        (ctx.force = true ∨
          (ctx.clean = true ∧
            specFastForwardOfCheckout ctx cb.hash (ctx.info b).refs = true ∧
            specOtherRefsFastForward ctx repo.refs (ctx.info b).refs = true)) := by
  simp only [attemptBundle, hav, Bool.false_eq_true, if_false]
  cases hfil : (ctx.info b).refs.filter
      (fun x => x.ref == "refs/heads/" ++ ctx.currentBranchName) with
  | nil =>
    have hffspec : specFastForwardOfCheckout ctx cb.hash (ctx.info b).refs = false := by
      simp only [specFastForwardOfCheckout, hfil]
    cases hforceval : ctx.force with
    | false =>
      have hbad : isBadHeadUpdate ctx (ctx.info b).refs = true := by
        simp only [isBadHeadUpdate, if_neg hname, hfil, hforceval]
        simp
      simp [hbad, hffspec, hforceval]
    | true =>
      have hbad : isBadHeadUpdate ctx (ctx.info b).refs = false := by
        simp only [isBadHeadUpdate, if_neg hname, hfil, hforceval, if_true]
      simp only [hbad, Bool.false_eq_true, if_false]
      cases hp : (ctx.info b).prereqs.all (fun c => decide (c ∈ repo.commits)) with
      | false => simp [fetchDryRun, hp, hforceval]
      | true => simp [fetchDryRun, hp, hforceval]
  | cons r rest =>
    obtain ⟨hrest, huniq⟩ := filter_ref_eq_singleton hnodup hfil
    subst hrest
    have hrmem : r ∈ (ctx.info b).refs := by
      have : r ∈ (ctx.info b).refs.filter
          (fun x => x.ref == "refs/heads/" ++ ctx.currentBranchName) := by
        rw [hfil]; exact List.mem_cons_self r []
      exact List.mem_of_mem_filter this
    have hrref : r.ref = "refs/heads/" ++ ctx.currentBranchName := by
      have : r ∈ (ctx.info b).refs.filter
          (fun x => x.ref == "refs/heads/" ++ ctx.currentBranchName) := by
        rw [hfil]; exact List.mem_cons_self r []
      simpa using (List.mem_filter.mp this).2
    have hrh : (r.hash == cb.hash) = false := by
      have := hchange
      simp only [specChangesOrDeletesCheckout, hfil, Bool.not_eq_true'] at this
      exact this
    have hrh' : r.hash ≠ cb.hash := by simpa using hrh
    have hffr : refUpdateFastForward ctx repo.refs r =
        ctx.descends r.hash cb.hash := by
      simp only [refUpdateFastForward, hrref, hlook]
      have : (cb.hash == r.hash) = false := by
        simp [Ne.symm hrh']
      simp [this]
    have hffspec : specFastForwardOfCheckout ctx cb.hash (ctx.info b).refs =
        ctx.descends r.hash cb.hash := by
      simp only [specFastForwardOfCheckout, hfil, hrh, Bool.false_or]
    have hany : (((ctx.info b).refs.any
          (fun x => !(refUpdateFastForward ctx repo.refs x))) = false ↔
        (ctx.descends r.hash cb.hash = true ∧
          specOtherRefsFastForward ctx repo.refs (ctx.info b).refs = true)) := by
      constructor
      · intro hall
        have hall' : ∀ x ∈ (ctx.info b).refs,
            refUpdateFastForward ctx repo.refs x = true := by
          intro x hx
          have : ¬ ((ctx.info b).refs.any
              (fun y => !(refUpdateFastForward ctx repo.refs y)) = true) := by
            simp [hall]
          rw [List.any_eq_true] at this
          push_neg at this
          have := this x hx
          simpa using this
        refine ⟨by rw [← hffr]; exact hall' r hrmem, ?_⟩
        simp only [specOtherRefsFastForward, List.all_eq_true]
        intro x hx
        simp [hall' x hx]
      · rintro ⟨hdesc, hoth⟩
        have hall' : ∀ x ∈ (ctx.info b).refs,
            refUpdateFastForward ctx repo.refs x = true := by
          intro x hx
          by_cases hxr : x.ref = "refs/heads/" ++ ctx.currentBranchName
          · rw [huniq x hx hxr, hffr]; exact hdesc
          · simp only [specOtherRefsFastForward, List.all_eq_true] at hoth
            have := hoth x hx
            simpa [hxr] using this
        rw [Bool.eq_false_iff]
        intro hcontra
        rw [List.any_eq_true] at hcontra
        obtain ⟨x, hx, hxbad⟩ := hcontra
        rw [hall' x hx] at hxbad
        simp at hxbad
    cases hforceval : ctx.force with
    | true =>
      have hbad : isBadHeadUpdate ctx (ctx.info b).refs = false := by
        simp only [isBadHeadUpdate, if_neg hname, hfil, hforceval, Bool.true_or,
          if_true]
      simp only [hbad, Bool.false_eq_true, if_false]
      cases hp : (ctx.info b).prereqs.all (fun c => decide (c ∈ repo.commits)) with
      | false => simp [fetchDryRun, hp]
      | true => simp [fetchDryRun, hp]
    | false =>
      cases hclean : ctx.clean with
      | false =>
        have hbareval : ctx.isBare = false := by
          cases hb : ctx.isBare with
          | false => rfl
          | true => rw [hbare hb] at hclean; exact absurd hclean (by simp)
        have hbad : isBadHeadUpdate ctx (ctx.info b).refs = true := by
          simp only [isBadHeadUpdate, if_neg hname, hfil, hforceval, hbareval,
            hcb, hrh, hclean]
          simp
        simp [hbad, hclean, hforceval]
      | true =>
        have hbad : isBadHeadUpdate ctx (ctx.info b).refs = false := by
          cases hb : ctx.isBare with
          | true =>
            simp only [isBadHeadUpdate, if_neg hname, hfil, hforceval, hb,
              Bool.or_true, if_true]
          | false =>
            simp only [isBadHeadUpdate, if_neg hname, hfil, hforceval, hb,
              hcb, hrh, hclean]
            simp
        simp only [hbad, Bool.false_eq_true, if_false]
        cases hp : (ctx.info b).prereqs.all (fun c => decide (c ∈ repo.commits)) with
        | false => simp [fetchDryRun, hp]
        | true =>
          cases hany2 : ((ctx.info b).refs.any
              (fun x => !(refUpdateFastForward ctx repo.refs x))) with
          | false =>
            have := hany.mp hany2
            simp [fetchDryRun, hp, hany2, hclean, hffspec, this.1, this.2]
          | true =>
            have hfd : fetchDryRun ctx repo false (ctx.info b) =
                .nonFastForward := by
              simp [fetchDryRun, hp, hany2]
            have hnot : specFastForwardOfCheckout ctx cb.hash (ctx.info b).refs =
                  false ∨
                specOtherRefsFastForward ctx repo.refs (ctx.info b).refs =
                  false := by
              by_cases hd : ctx.descends r.hash cb.hash = true
              · by_cases ho : specOtherRefsFastForward ctx repo.refs
                    (ctx.info b).refs = true
                · exact absurd (hany.mpr ⟨hd, ho⟩) (by simp [hany2])
                · exact Or.inr (Bool.eq_false_iff.mpr ho)
              · exact Or.inl (by rw [hffspec]; exact Bool.eq_false_iff.mpr hd)
            rw [hfd]
            rcases hnot with hn | hn <;> simp [hn]

/-- Claim C9: a restore invocation that restored zero snapshots fails with
the distinct nothing-restored signal (exit code 3, `NOTHING_RESTORED`), and
an invocation that restored some but not all snapshots only warns and does
not fail. -/
theorem claim9_nothing_restored_exit (restored total : Nat) :
    (mainRestoreReport restored total = .failed ExitCode.nothingRestored ↔
      restored = 0) ∧
    ExitCode.toNat ExitCode.nothingRestored = 3 ∧
    (mainRestoreReport restored total = .someUnrestored ↔
      restored ≠ 0 ∧ restored ≠ total) := by
  unfold mainRestoreReport
  refine ⟨?_, rfl, ?_⟩ <;> split_ifs with h1 h2 <;> simp_all

/-- Claim C10: `are_available` is vacuously true on an empty reference list,
so in a non-forced restore a bundle listing no references is always
classified as already restored (and the fetch path is never reached). -/
theorem claim10_empty_refs_already_restored (ctx : RestoCtx) (repo : RepoDyn)
    (b : String) (h1 : (ctx.info b).refs = []) (h2 : ctx.force = false) :
    areAvailable repo.commits [] = true ∧
    attemptBundle ctx repo b = .alreadyRestored := by
  refine ⟨rfl, ?_⟩
  simp [attemptBundle, h1, h2, areAvailable]

theorem claim10_witness :
    areAvailable (RepoDyn.mk ["c1"] []).commits [] = true ∧
    attemptBundle
      (RestoCtx.mk (fun _ _ => false) (fun _ => ⟨[], [], []⟩) false false
        false false true false false "main" none)
      (RepoDyn.mk ["c1"] []) "b0" = .alreadyRestored :=
  claim10_empty_refs_already_restored _ _ _ rfl rfl

/-- Claim C4: a candidate bundle is classified as already restored exactly
when all its referenced commits are present in the target and forced
re-application does not apply (which happens exactly when `--force` is set
and either the bundle argument was a single file or strict-order mode is on);
the classification marks the bundle done in the skip set, advancing the
convergence bookkeeping. -/
theorem claim4_already_restored_classification (ctx : RestoCtx)
    (repo : RepoDyn) (b : String) (st : RestoState) :
    (attemptBundle ctx repo b = .alreadyRestored ↔
      areAvailable repo.commits (ctx.info b).refs = true ∧
        (ctx.force && (ctx.strictOrder || ctx.isFile)) = false) ∧
    b ∈ (markBundleRestored ctx st b true).1.skipBundles := by
  constructor
  · simp only [attemptBundle]
    by_cases h : (!(ctx.force && (ctx.strictOrder || ctx.isFile)) &&
        areAvailable repo.commits (ctx.info b).refs) = true
    · rw [if_pos h]
      rw [Bool.and_eq_true, Bool.not_eq_true'] at h
      simp [h.1, h.2]
    · rw [if_neg h]
      constructor
      · intro hbad
        exfalso
        split at hbad
        · simp at hbad
        · split at hbad <;> simp_all
      · rintro ⟨hav, hforce⟩
        exact absurd (by simp [hav, hforce] :
          (!(ctx.force && (ctx.strictOrder || ctx.isFile)) &&
            areAvailable repo.commits (ctx.info b).refs) = true) h
  · unfold markBundleRestored
    split
    · simp
    · split <;> simp

/-- Claim C7: in a backup run that uses a metadata record, any reference
whose name is recorded in `known_tag_refs` is excluded from the references
included in the new snapshot. -/
theorem claim7_known_tag_refs_excluded (repo : SourceRepo)
    (storedBundle : Option (List GitRef)) (m : Metadata) (skipUnchanged : Bool)
    (r : GitRef)
    (hr : r ∈ (createIncrementalBundle repo storedBundle (some m)
      skipUnchanged).refsIncluded) :
    decide (r.ref ∈ m.known_tag_refs) = false := by
  simp only [createIncrementalBundle] at hr
  split at hr
  · simp [CibResult.refsIncluded] at hr
  · simp only [CibResult.refsIncluded, cibRefsToInclude, List.mem_filter,
      Bool.not_eq_true'] at hr
    exact hr.2

/-- Claim C8: the returned metadata's `known_tag_refs` contains every entry
of the input metadata's `known_tag_refs`: the set only grows, on the written
path as well as on the skip path. -/
theorem claim8_known_tag_refs_grow (repo : SourceRepo)
    (storedBundle : Option (List GitRef)) (m : Metadata) (skipUnchanged : Bool)
    (x : String) (hx : x ∈ m.known_tag_refs) :
    x ∈ ((createIncrementalBundle repo storedBundle (some m)
      skipUnchanged).resultMetadata).known_tag_refs := by
  simp only [createIncrementalBundle] at *
  split
  · simpa [CibResult.resultMetadata] using hx
  · simp only [CibResult.resultMetadata, Option.getD, List.mem_dedup,
      List.mem_append]
    exact Or.inl hx

/-- Claim C5: observed through its file writes, `perform_backup` performs its
writes in chronological order bundle-then-stored-then-metadata, writes the
metadata file exactly when the gateway succeeded, a bundle was written and a
metadata file was named, updates the stored bundle exactly when the gateway
succeeded, a bundle was written and the stored location differs, and on the
skip-unchanged path or a gateway failure performs no write at all. -/
theorem claim5_metadata_after_bundle (repo : SourceRepo)
    (storedBundle : Option (List GitRef)) (metadataOpt : Option Metadata)
    (skipUnchanged gatewayOk bundleIsStored hasMetadataFile : Bool) :
    (performBackup repo storedBundle metadataOpt skipUnchanged gatewayOk
        bundleIsStored hasMetadataFile).1.Pairwise
      (fun a b => a.rank < b.rank) ∧
    (BackupEvent.bundleCreated ∈ (performBackup repo storedBundle metadataOpt
        skipUnchanged gatewayOk bundleIsStored hasMetadataFile).1 ↔
      gatewayOk = true ∧ (createIncrementalBundle repo storedBundle metadataOpt
        skipUnchanged).wasWritten = true) ∧
    (BackupEvent.storedUpdated ∈ (performBackup repo storedBundle metadataOpt
        skipUnchanged gatewayOk bundleIsStored hasMetadataFile).1 ↔
      gatewayOk = true ∧ (createIncrementalBundle repo storedBundle metadataOpt
        skipUnchanged).wasWritten = true ∧ bundleIsStored = false) ∧
    (BackupEvent.metadataWritten ∈ (performBackup repo storedBundle metadataOpt
        skipUnchanged gatewayOk bundleIsStored hasMetadataFile).1 ↔
      gatewayOk = true ∧ (createIncrementalBundle repo storedBundle metadataOpt
        skipUnchanged).wasWritten = true ∧ hasMetadataFile = true) := by
  cases gatewayOk <;>
    cases hc : createIncrementalBundle repo storedBundle metadataOpt
      skipUnchanged <;>
    cases bundleIsStored <;> cases hasMetadataFile <;>
    simp [performBackup, hc, CibResult.wasWritten, BackupEvent.rank]

/-- Claim C1: the exclusion set passed to bundle creation is exactly the set
of candidate commits (the previous snapshot's frontier commits plus the
existing immediate parent of each included reference's commit) whose full
ancestry set is disjoint from `all_commits_to_include`; no candidate whose
ancestry intersects it, and no commit outside the candidate set, is ever
excluded. -/
theorem claim1_exclusion_set (repo : SourceRepo)
    (storedBundle : Option (List GitRef)) (metadataOpt : Option Metadata)
    (skipUnchanged : Bool) (m : Metadata) (refs : List GitRef)
    (exclusions newCommits : List String)
    (h : createIncrementalBundle repo storedBundle metadataOpt skipUnchanged =
      .written m refs exclusions newCommits) (c : String) :
    c ∈ exclusions ↔
      c ∈ cibCandidates repo storedBundle metadataOpt ∧
        ∀ a ∈ repo.ancestry c,
          a ∉ cibAllCommitsToInclude repo storedBundle metadataOpt := by
  have hex : exclusions = cibUseExclusions repo storedBundle metadataOpt := by
    simp only [createIncrementalBundle] at h
    split at h
    · exact absurd h (by simp)
    · injection h with h1 h2 h3 h4
      exact h3.symm
  subst hex
  simp [cibUseExclusions, List.mem_filter, List.mem_dedup, List.all_eq_true]

theorem claim1_witness :
    "c1" ∈ ["c1"] ↔
      "c1" ∈ cibCandidates plainRepo (some [⟨"c1", "refs/heads/main"⟩]) none ∧
        ∀ a ∈ plainRepo.ancestry "c1",
          a ∉ cibAllCommitsToInclude plainRepo
            (some [⟨"c1", "refs/heads/main"⟩]) none :=
  claim1_exclusion_set plainRepo (some [⟨"c1", "refs/heads/main"⟩]) none false
    ⟨1, []⟩ [⟨"c2", "refs/heads/main"⟩] ["c1"] ["c2"] (by decide) "c1"

theorem claim2_witness :
    attemptBundle exCtx exRepo "b0" = .restored ↔
      (exCtx.info "b0").prereqs.all (fun c => decide (c ∈ exRepo.commits)) =
          true ∧
        (exCtx.force = true ∨
          (exCtx.clean = true ∧
            specFastForwardOfCheckout exCtx exCb.hash (exCtx.info "b0").refs =
              true ∧
            specOtherRefsFastForward exCtx exRepo.refs (exCtx.info "b0").refs =
              true)) :=
  claim2_checked_out_branch_safety exCtx exRepo "b0" exCb rfl (by decide)
    (by decide) (by decide) (by decide) (by decide) (by decide)

theorem claim7_witness :
    decide ("refs/heads/main" ∈ (Metadata.mk 1 ["refs/tags/v0"]).known_tag_refs)
      = false :=
  claim7_known_tag_refs_excluded witnessRepo none ⟨1, ["refs/tags/v0"]⟩ false
    ⟨"c2", "refs/heads/main"⟩ (by decide)

theorem claim8_witness :
    "refs/tags/v0" ∈
      ((createIncrementalBundle witnessRepo none (some ⟨1, ["refs/tags/v0"]⟩)
        false).resultMetadata).known_tag_refs :=
  claim8_known_tag_refs_grow witnessRepo none ⟨1, ["refs/tags/v0"]⟩ false
    "refs/tags/v0" (by decide)

/-- Marking a bundle restored records it in the skip set, in every branch of
`_mark_bundle_restored`. -/
theorem markBundleRestored_skip (ctx : RestoCtx) (st : RestoState) (b : String)
    (w : Bool) :
    (markBundleRestored ctx st b w).1.skipBundles = b :: st.skipBundles := by
  unfold markBundleRestored
  split
  · rfl
  · split <;> rfl

/-- Marking an already-restored bundle never reports progress. -/
theorem markBundleRestored_flag (ctx : RestoCtx) (st : RestoState)
    (b : String) : (markBundleRestored ctx st b true).2 = false := by
  cases hd : ctx.deleteFiles <;> simp [markBundleRestored, hd]

/-- A sweep only ever grows the skip set. -/
theorem sweepGo_skip_mono (ctx : RestoCtx) :
    ∀ (l : List String) (st : RestoState) (m : Bool),
      st.skipBundles ⊆ (sweepGo ctx l st m).1.skipBundles := by
  intro l
  induction l with
  | nil =>
    intro st m
    exact fun x hx => hx
  | cons b rest ih =>
    intro st m
    simp only [sweepGo]
    by_cases hb : b ∈ st.skipBundles
    · rw [if_pos hb]
      exact ih st m
    · rw [if_neg hb]
      cases hatt : attemptBundle ctx st.repo b with
      | alreadyRestored =>
        dsimp only
        refine List.Subset.trans ?_ (ih _ _)
        rw [markBundleRestored_skip]
        exact List.subset_cons_self b st.skipBundles
      | refusedHead =>
        dsimp only
        by_cases hs : ctx.strictOrder = true
        · rw [if_pos hs]
          exact List.subset_cons_self b st.skipBundles
        · rw [if_neg hs]
          refine List.Subset.trans ?_
            (ih { st with skipBundles := b :: st.skipBundles } m)
          exact List.subset_cons_self b st.skipBundles
      | failedRestore =>
        dsimp only
        by_cases hs : ctx.strictOrder = true
        · rw [if_pos hs]
          exact fun x hx => hx
        · rw [if_neg hs]
          exact ih _ _
      | restored =>
        dsimp only
        refine List.Subset.trans ?_ (ih _ _)
        rw [markBundleRestored_skip]
        exact List.subset_cons_self b _

/-- A sweep over bundles that are all already skipped does nothing. -/
theorem sweepGo_all_skipped (ctx : RestoCtx) :
    ∀ (l : List String) (st : RestoState) (m : Bool),
      (∀ b ∈ l, b ∈ st.skipBundles) → sweepGo ctx l st m = (st, m) := by
  intro l
  induction l with
  | nil => intro st m _; rfl
  | cons b rest ih =>
    intro st m h
    simp only [sweepGo]
    rw [if_pos (h b (List.mem_cons_self b rest))]
    exact ih st m (fun x hx => h x (List.mem_cons_of_mem b hx))

/-- A sweep reports progress only when it restored a bundle that was not
skipped before, and that bundle ends up in the skip set. -/
theorem sweepGo_progress (ctx : RestoCtx) :
    ∀ (l : List String) (st : RestoState) (m : Bool),
      (sweepGo ctx l st m).2 = true →
      m = true ∨ ∃ b, b ∈ l ∧ b ∉ st.skipBundles ∧
        b ∈ (sweepGo ctx l st m).1.skipBundles := by
  intro l
  induction l with
  | nil =>
    intro st m h
    exact Or.inl h
  | cons b rest ih =>
    intro st m h
    simp only [sweepGo] at h ⊢
    by_cases hb : b ∈ st.skipBundles
    · rw [if_pos hb] at h ⊢
      rcases ih st m h with hm | ⟨b', hb1, hb2, hb3⟩
      · exact Or.inl hm
      · exact Or.inr ⟨b', List.mem_cons_of_mem b hb1, hb2, hb3⟩
    · rw [if_neg hb] at h ⊢
      revert h
      cases hatt : attemptBundle ctx st.repo b
      · dsimp only
        intro h
        rw [markBundleRestored_flag, Bool.or_false] at h ⊢
        rcases ih _ m h with hm | ⟨b', hb1, hb2, hb3⟩
        · exact Or.inl hm
        · refine Or.inr ⟨b', List.mem_cons_of_mem b hb1, ?_, hb3⟩
          intro hc
          apply hb2
          rw [markBundleRestored_skip]
          exact List.mem_cons_of_mem b hc
      · dsimp only
        intro h
        by_cases hs : ctx.strictOrder = true
        · rw [if_pos hs] at h ⊢
          exact Or.inl h
        · rw [if_neg hs] at h ⊢
          rcases ih _ m h with hm | ⟨b', hb1, hb2, hb3⟩
          · exact Or.inl hm
          · refine Or.inr ⟨b', List.mem_cons_of_mem b hb1, ?_, hb3⟩
            intro hc
            exact hb2 (List.mem_cons_of_mem b hc)
      · dsimp only
        intro h
        by_cases hs : ctx.strictOrder = true
        · rw [if_pos hs] at h ⊢
          exact Or.inl h
        · rw [if_neg hs] at h ⊢
          rcases ih _ m h with hm | ⟨b', hb1, hb2, hb3⟩
          · exact Or.inl hm
          · exact Or.inr ⟨b', List.mem_cons_of_mem b hb1, hb2, hb3⟩
      · dsimp only
        intro h
        refine Or.inr ⟨b, List.mem_cons_self b rest, hb, ?_⟩
        have hmem : b ∈ (markBundleRestored ctx
            { st with repo := applyBundle ctx st.repo b } b false).1.skipBundles := by
          rw [markBundleRestored_skip]
          exact List.mem_cons_self _ _
        exact sweepGo_skip_mono ctx rest _ _ hmem

/-- Pointwise dominated predicates count no more elements. -/
theorem countP_le_countP {p q : String → Bool} :
    ∀ l : List String, (∀ x ∈ l, p x = true → q x = true) →
      l.countP p ≤ l.countP q := by
  intro l
  induction l with
  | nil => intro _; exact Nat.le_refl _
  | cons a t ih =>
    intro h
    rw [List.countP_cons, List.countP_cons]
    have ht := ih (fun x hx => h x (List.mem_cons_of_mem a hx))
    cases hpa : p a with
    | false =>
      cases hqa : q a with
      | false => simpa using ht
      | true => simp; omega
    | true =>
      cases hqa : q a with
      | false => exact absurd (h a (List.mem_cons_self a t) hpa) (by simp [hqa])
      | true => simp; omega

/-- Growing the skip set by an element of the worklist strictly lowers the
number of unskipped worklist items. -/
theorem countP_unskipped_lt {skip0 skip1 : List String} (hsub : skip0 ⊆ skip1)
    {b : String} (hb0 : b ∉ skip0) (hb1 : b ∈ skip1) :
    ∀ l : List String, b ∈ l →
      l.countP (fun x => !(decide (x ∈ skip1))) <
        l.countP (fun x => !(decide (x ∈ skip0))) := by
  have hpoint : ∀ x : String, (!(decide (x ∈ skip1))) = true →
      (!(decide (x ∈ skip0))) = true := by
    intro x hx
    simp only [Bool.not_eq_true', decide_eq_false_iff_not] at hx
    simp only [Bool.not_eq_true', decide_eq_false_iff_not]
    exact fun hc => hx (hsub hc)
  intro l
  induction l with
  | nil => intro h; cases h
  | cons a t ih =>
    intro hbl
    rw [List.countP_cons, List.countP_cons]
    have hmono := countP_le_countP t (fun x _ => hpoint x)
    have hhead : (if (!(decide (a ∈ skip1))) = true then 1 else 0) ≤
        (if (!(decide (a ∈ skip0))) = true then 1 else 0) := by
      by_cases ha : (!(decide (a ∈ skip1))) = true
      · rw [if_pos ha, if_pos (hpoint a ha)]
      · rw [if_neg ha]
        split <;> omega
    rcases List.mem_cons.mp hbl with hab | hbt
    · have h1 : (!(decide (a ∈ skip1))) = false := by
        rw [← hab]; simp [hb1]
      have h0 : (!(decide (a ∈ skip0))) = true := by
        rw [← hab]; simp [hb0]
      rw [h1, h0]
      simp
      omega
    · have hlt := ih hbt
      omega

/-- The sweep loop is insensitive to its fuel once the fuel exceeds the
number of unskipped bundles: every continued iteration strictly lowers that
number. -/
theorem restoreLoop_fuel_eq (ctx : RestoCtx) (bundles : List String) :
    ∀ (n : Nat) (st : RestoState) (fuel1 fuel2 : Nat),
      bundles.countP (fun x => !(decide (x ∈ st.skipBundles))) ≤ n →
      n < fuel1 → n < fuel2 →
      restoreLoop ctx bundles fuel1 st = restoreLoop ctx bundles fuel2 st := by
  intro n
  induction n with
  | zero =>
    intro st fuel1 fuel2 hcnt h1 h2
    obtain ⟨f1, rfl⟩ : ∃ f, fuel1 = f + 1 := ⟨fuel1 - 1, by omega⟩
    obtain ⟨f2, rfl⟩ : ∃ f, fuel2 = f + 1 := ⟨fuel2 - 1, by omega⟩
    have hall : ∀ x ∈ bundles, x ∈ st.skipBundles := by
      intro x hx
      by_contra hnx
      have hpos : 0 < bundles.countP (fun x => !(decide (x ∈ st.skipBundles))) := by
        rw [List.countP_pos_iff]
        exact ⟨x, hx, by simp [hnx]⟩
      omega
    have hsw := sweepGo_all_skipped ctx bundles st false hall
    simp [restoreLoop, hsw]
  | succ n ih =>
    intro st fuel1 fuel2 hcnt h1 h2
    obtain ⟨f1, rfl⟩ : ∃ f, fuel1 = f + 1 := ⟨fuel1 - 1, by omega⟩
    obtain ⟨f2, rfl⟩ : ∃ f, fuel2 = f + 1 := ⟨fuel2 - 1, by omega⟩
    simp only [restoreLoop]
    cases hsw : sweepGo ctx bundles st false with
    | mk st' more =>
      cases hmore : more with
      | false => simp
      | true =>
        cases hstrict : ctx.strictOrder with
        | true => simp
        | false =>
          simp only [Bool.not_false, Bool.and_true, if_pos]
          have hflag : (sweepGo ctx bundles st false).2 = true := by
            rw [hsw]; exact hmore
          rcases sweepGo_progress ctx bundles st false hflag with hm |
            ⟨b, hbl, hb0, hb1⟩
          · exact absurd hm (by simp)
          · have hsub := sweepGo_skip_mono ctx bundles st false
            rw [hsw] at hsub hb1
            dsimp only at hsub hb1
            have hlt := countP_unskipped_lt hsub hb0 hb1 bundles hbl
            exact ih st' f1 f2 (by omega) (by omega) (by omega)

/-- Claim C6: the directory-restore sweep loop reaches its fixed point within
`bundles.length + 1` sweeps (any fuel at least that large yields the same
final state, which is how `restoreBundles` runs it), and in strict-order mode
exactly one pass over the files is made. -/
theorem claim6_sweep_loop_bounded (ctx : RestoCtx) (bundles : List String)
    (st : RestoState) (fuel : Nat) (h : bundles.length + 1 ≤ fuel) :
    restoreLoop ctx bundles fuel st = restoreBundles ctx bundles st ∧
    restoreLoop { ctx with strictOrder := true } bundles fuel st =
      (sweepGo { ctx with strictOrder := true } bundles st false).1 := by
  constructor
  · unfold restoreBundles
    apply restoreLoop_fuel_eq ctx bundles bundles.length st fuel
      (bundles.length + 1)
    · exact List.countP_le_length _
    · omega
    · omega
  · obtain ⟨f, rfl⟩ : ∃ f, fuel = f + 1 := ⟨fuel - 1, by omega⟩
    simp only [restoreLoop]
    cases hsw : sweepGo { ctx with strictOrder := true } bundles st false with
    | mk st' more => simp

theorem claim6_witness :
    restoreLoop exCtx ["b0"] 2 exSt = restoreBundles exCtx ["b0"] exSt ∧
    restoreLoop { exCtx with strictOrder := true } ["b0"] 2 exSt =
      (sweepGo { exCtx with strictOrder := true } ["b0"] exSt false).1 :=
  claim6_sweep_loop_bounded exCtx ["b0"] exSt 2 (by decide)

/-- Counterexample to claim C3 as stated: with the example repository (one
branch, one not-yet-known tag) and no intervening repository change, the
first backup with `skip_unchanged` and a metadata file writes a bundle and
records the tag, and the second backup still writes a bundle (and rewrites
the metadata file): the tag is now filtered out of the references to
include, so the included set differs from the stored bundle's listing and the
skip-unchanged check does not fire. -/
theorem claim3_counterexample :
    (createIncrementalBundle witnessRepo none (some ⟨1, []⟩) true).wasWritten =
      true ∧
    (createIncrementalBundle witnessRepo
        (some (createIncrementalBundle witnessRepo none (some ⟨1, []⟩)
          true).refsIncluded)
        (some (createIncrementalBundle witnessRepo none (some ⟨1, []⟩)
          true).resultMetadata) true).wasWritten = true ∧
    BackupEvent.metadataWritten ∈
      (performBackup witnessRepo
        (some (createIncrementalBundle witnessRepo none (some ⟨1, []⟩)
          true).refsIncluded)
        (some (createIncrementalBundle witnessRepo none (some ⟨1, []⟩)
          true).resultMetadata) true true false true).1 := by decide

/-- Claim C3 as amended: invoking backup twice in succession with
`skip_unchanged` and no intervening repository change writes no second
snapshot and no metadata, provided the first run recorded no new tag
reference; when the first run newly records a tag under metadata, the second
run writes a references-only bundle again (see the counterexample).  And any
difference between the reference set to include and the previous bundle's
listed reference set (a new, removed or moved branch, or a new tag under
metadata) makes the run write a bundle. -/
theorem claim3_amended (repo : SourceRepo) (stored0 : Option (List GitRef))
    (mOpt0 : Option Metadata) (m1 : Metadata) (refs1 : List GitRef)
    (excl1 nc1 : List String)
    (hheads : ∀ r ∈ repo.headRefs, strStartsWith r.ref "refs/heads/" = true)
    (htags : ∀ r ∈ repo.tagRefs, strStartsWith r.ref "refs/tags/" = true)
    (h1 : createIncrementalBundle repo stored0 mOpt0 true =
      .written m1 refs1 excl1 nc1)
    (hnotags : ∀ r ∈ refs1, strStartsWith r.ref "refs/tags/" = false)
    (repo' : SourceRepo) (stored' : Option (List GitRef))
    (mOpt' : Option Metadata)
    (hdiff : sameRefSet (cibPrevRefs stored' mOpt')
      (cibRefsToInclude repo' mOpt') = false) :
    createIncrementalBundle repo (some refs1) (mOpt0.map (fun _ => m1)) true =
      .skipped ((mOpt0.map (fun _ => m1)).getD ⟨currentMetadataVersion, []⟩) ∧
    (createIncrementalBundle repo' stored' mOpt' true).wasWritten = true := by
  have hpart2 : (createIncrementalBundle repo' stored' mOpt' true).wasWritten =
      true := by
    simp only [createIncrementalBundle, hdiff, Bool.and_false,
      Bool.false_eq_true, if_false]
    rfl
  refine ⟨?_, hpart2⟩
  have hsame : sameRefSet refs1 refs1 = true := by
    simp [sameRefSet, List.all_eq_true]
  cases mOpt0 with
  | none =>
    simp only [createIncrementalBundle] at h1
    split at h1
    · exact absurd h1 (by simp)
    · injection h1 with hm1 hrefs1 hu1 hu2
      have hprev : cibPrevRefs (some refs1) none = refs1 := by
        simp only [cibPrevRefs, lsRemoteFilter, Option.isSome_none]
        rw [List.filter_eq_self]
        intro r hr
        have hrh : r ∈ repo.headRefs := by
          rw [← hrefs1] at hr
          simpa [cibRefsToInclude] using hr
        simp [hheads r hrh]
      have hnc : cibNewCommits repo (some refs1) none = [] := by
        unfold cibNewCommits cibPrevCommits
        rw [hrefs1, hprev]
        unfold revList
        rw [List.filter_eq_nil_iff]
        intro c hc
        simp [hc]
      simp only [Option.map_none']
      simp only [createIncrementalBundle, hrefs1, hprev, hnc, hsame]
      simp
  | some m0 =>
    simp only [createIncrementalBundle, Option.getD_some] at h1
    split at h1
    · exact absurd h1 (by simp)
    · injection h1 with hm1 hrefs1 hu1 hu2
      have hfilnil : refs1.filter (fun r => strStartsWith r.ref "refs/tags/") =
          [] := by
        rw [List.filter_eq_nil_iff]
        intro r hr
        simp [hnotags r hr]
      have hknown : ∀ x : String,
          x ∈ m1.known_tag_refs ↔ x ∈ m0.known_tag_refs := by
        intro x
        rw [← hm1]
        rw [hrefs1, hfilnil]
        simp [List.mem_dedup]
      have hrefs2 : cibRefsToInclude repo (some m1) = refs1 := by
        rw [← hrefs1]
        simp only [cibRefsToInclude]
        apply List.filter_congr
        intro r _
        have : decide (r.ref ∈ m1.known_tag_refs) =
            decide (r.ref ∈ m0.known_tag_refs) :=
          decide_eq_decide.mpr (hknown r.ref)
        rw [this]
      have hmemht : ∀ r ∈ refs1, r ∈ repo.headRefs ∨ r ∈ repo.tagRefs := by
        intro r hr
        rw [← hrefs1] at hr
        simp only [cibRefsToInclude, Option.isSome_some, if_true,
          List.mem_filter, List.mem_append] at hr
        exact hr.1
      have hprev : cibPrevRefs (some refs1) (some m1) = refs1 := by
        simp only [cibPrevRefs, lsRemoteFilter, Option.isSome_some]
        rw [List.filter_eq_self]
        intro r hr
        rcases hmemht r hr with hh | ht
        · simp [hheads r hh]
        · simp [htags r ht]
      have hnc : cibNewCommits repo (some refs1) (some m1) = [] := by
        unfold cibNewCommits cibPrevCommits
        rw [hrefs2, hprev]
        unfold revList
        rw [List.filter_eq_nil_iff]
        intro c hc
        simp [hc]
      simp only [Option.map_some']
      simp only [createIncrementalBundle, hrefs2, hprev, hnc, hsame]
      simp

theorem claim3_witness :
    createIncrementalBundle plainRepo
        (some [⟨"c2", "refs/heads/main"⟩])
        ((some (Metadata.mk 1 [])).map (fun _ => Metadata.mk 1 [])) true =
      .skipped (((some (Metadata.mk 1 [])).map
        (fun _ => Metadata.mk 1 [])).getD ⟨currentMetadataVersion, []⟩) ∧
    (createIncrementalBundle plainRepo none none true).wasWritten = true :=
  claim3_amended plainRepo none (some ⟨1, []⟩) ⟨1, []⟩
    [⟨"c2", "refs/heads/main"⟩] [] ["c2", "c1"] (by decide) (by decide)
    (by decide) (by decide) plainRepo none none (by decide)

theorem claim4_witness :
    (attemptBundle exCtx exRepo "b0" = .alreadyRestored ↔
      areAvailable exRepo.commits (exCtx.info "b0").refs = true ∧
        (exCtx.force && (exCtx.strictOrder || exCtx.isFile)) = false) ∧
    "b0" ∈ (markBundleRestored exCtx exSt "b0" true).1.skipBundles :=
  claim4_already_restored_classification exCtx exRepo "b0" exSt

theorem claim5_witness :
    (performBackup witnessRepo none (some ⟨1, []⟩) true true false
        true).1.Pairwise (fun a b => a.rank < b.rank) ∧
    (BackupEvent.bundleCreated ∈ (performBackup witnessRepo none
        (some ⟨1, []⟩) true true false true).1 ↔
      true = true ∧ (createIncrementalBundle witnessRepo none (some ⟨1, []⟩)
        true).wasWritten = true) ∧
    (BackupEvent.storedUpdated ∈ (performBackup witnessRepo none
        (some ⟨1, []⟩) true true false true).1 ↔
      true = true ∧ (createIncrementalBundle witnessRepo none (some ⟨1, []⟩)
        true).wasWritten = true ∧ false = false) ∧
    (BackupEvent.metadataWritten ∈ (performBackup witnessRepo none
        (some ⟨1, []⟩) true true false true).1 ↔
      true = true ∧ (createIncrementalBundle witnessRepo none (some ⟨1, []⟩)
        true).wasWritten = true ∧ true = true) :=
  claim5_metadata_after_bundle witnessRepo none (some ⟨1, []⟩) true true false
    true

theorem claim9_witness :
    (mainRestoreReport 0 2 = .failed ExitCode.nothingRestored ↔ 0 = 0) ∧
    ExitCode.toNat ExitCode.nothingRestored = 3 ∧
    (mainRestoreReport 0 2 = .someUnrestored ↔ 0 ≠ 0 ∧ 0 ≠ 2) :=
  claim9_nothing_restored_exit 0 2
